import Mathlib

/-
Verification development for the fidget-spinner RPM pipeline.

The repository consists of a Python host (`src/python/fidget_spinner/__main__.py`)
driving a native pipeline (`extension.RpmCalculator.process`, implemented in the
repository's `src/lib.rs`, which is not part of the files available here).

Definitions below are of two kinds:
 * translations of the Python host code (constants, call-site argument
   transformations, the caller-owned display buffers, the rolling RPM history
   update, and the cursor handling of `to_python`);
 * a model of the native pipeline, marked `Modelled from the spec:`, built from
   the specification's component contracts (temporal binner, sliding window,
   spectral analyzer, periodicity detector, harmonic resolver, rate-synchronized
   emitter).  Where the specification leaves the Fourier analysis abstract, the
   pipeline is parametrized by an `Analyzer` (any function from the sample
   window to spectrum and autocorrelation magnitudes); all state-machine
   theorems hold for every analyzer.

Event timestamps are modelled as natural numbers counting microseconds, the
unit used by the event camera driving the host.  Amplitudes, thresholds and RPM
values are modelled as rationals.
-/

namespace FidgetSpinner

/-- Constant from `__main__.py` line 14: `FFT_FREQUENCY: float = 512.0`
(bins per second of binned-signal time; the value is integral). -/
def FFT_FREQUENCY : ℕ := 512

/-- Constant from `__main__.py` line 15: `FFT_SAMPLES: int = 1024`. -/
def FFT_SAMPLES : ℕ := 1024

/-- Constant from `__main__.py` line 16: `SAMPLING_FREQUENCY: float = 10.0`
(RPM samples per second of binned-signal time; the value is integral). -/
def SAMPLING_FREQUENCY : ℕ := 10

/-- Constant from `__main__.py` line 21: `DEFAULT_AMPLITUDE_THRESHOLD: int = 100`. -/
def DEFAULT_AMPLITUDE_THRESHOLD : ℕ := 100

/-- Constant from `__main__.py` line 22: `DEFAULT_AUTOCORRELATION_THRESHOLD: int = 40`. -/
def DEFAULT_AUTOCORRELATION_THRESHOLD : ℕ := 40

/-- Constant from `__main__.py` line 23: `DEFAULT_FREQUENCY_DIVIDER: int = 3`. -/
def DEFAULT_FREQUENCY_DIVIDER : ℕ := 3

/-- Microseconds per second: event timestamps are in microseconds. -/
def MICROSECONDS_PER_SECOND : ℕ := 1000000

/-- Modelled from the spec: an event-camera event, section 3's data model
`{x, y, timestamp, polarity}` (the host forwards `packet.polarity_events`
to the native pipeline, whose sources are not available here). -/
structure Event where
  x : ℕ
  y : ℕ
  t : ℕ
  polarity : Bool
deriving DecidableEq, Repr

/-- Argument transformation at the call site, `__main__.py` line 78:
the host passes `amplitude_threshold / 10.0` to `process`. -/
def amplitudeArgOf (amplitude_threshold : ℕ) : ℚ := (amplitude_threshold : ℚ) / 10

/-- Argument transformation at the call site, `__main__.py` line 79:
the host passes `autocorrelation_threshold / 100.0` to `process`. -/
def autocorrelationArgOf (autocorrelation_threshold : ℕ) : ℚ :=
  (autocorrelation_threshold : ℚ) / 100

/-- Argument transformation at the call site, `__main__.py` line 80:
the host passes `1.0 / frequency_divider` to `process` — the reciprocal of the
integer divider, as a float. -/
def frequencyArgOf (frequency_divider : ℕ) : ℚ := 1 / (frequency_divider : ℚ)

/-- Modelled from the spec: the per-call parameters received by `process`
(section 6), in the form they cross the host/pipeline boundary (`__main__.py`
lines 78-80): two thresholds and the harmonic compensation factor (the
reciprocal of the caller's integer divider). -/
structure Params where
  amplitudeThreshold : ℚ
  autocorrelationThreshold : ℚ
  frequencyFactor : ℚ
deriving DecidableEq, Repr

/-- The parameters produced by the host's defaults (`__main__.py` lines 21-23
transformed by lines 78-80): thresholds 10 and 2/5, factor 1/3. -/
def defaultParams : Params :=
  { amplitudeThreshold := amplitudeArgOf DEFAULT_AMPLITUDE_THRESHOLD
    autocorrelationThreshold := autocorrelationArgOf DEFAULT_AUTOCORRELATION_THRESHOLD
    frequencyFactor := frequencyArgOf DEFAULT_FREQUENCY_DIVIDER }

/-- Modelled from the spec: section 7 (a), InvalidConfiguration handling of the
native pipeline (not in the available sources).  Out-of-range parameters are
clamped to the nearest valid value: `amplitude_threshold` to `≥ 0`,
`autocorrelation_threshold` to `[0, 1]`, and the frequency factor to a valid
reciprocal of an integer divider `≥ 1`, i.e. to `(0, 1]`; a factor outside that
interval corresponds to `frequency_divider < 1` and is clamped to divider 1. -/
def clampParams (p : Params) : Params :=
  { amplitudeThreshold := if p.amplitudeThreshold < 0 then 0 else p.amplitudeThreshold
    autocorrelationThreshold :=
      if p.autocorrelationThreshold < 0 then 0
      else if 1 < p.autocorrelationThreshold then 1
      else p.autocorrelationThreshold
    frequencyFactor :=
      if 0 < p.frequencyFactor ∧ p.frequencyFactor ≤ 1 then p.frequencyFactor else 1 }

/-- The documented parameter ranges of spec section 6: `amplitude_threshold ≥ 0`,
`autocorrelation_threshold ∈ [0, 1]`, and a frequency factor in `(0, 1]`
(the reciprocal of an integer divider `≥ 1` always lies there). -/
def ValidParams (p : Params) : Prop :=
  0 ≤ p.amplitudeThreshold ∧
    0 ≤ p.autocorrelationThreshold ∧ p.autocorrelationThreshold ≤ 1 ∧
    0 < p.frequencyFactor ∧ p.frequencyFactor ≤ 1

instance (p : Params) : Decidable (ValidParams p) :=
  inferInstanceAs (Decidable (_ ≤ _ ∧ _ ≤ _ ∧ _ ≤ _ ∧ _ < _ ∧ _ ≤ _))

/-- Modelled from the spec: the spectral analyzer and periodicity detector of
sections 4.3 and 4.4 (native code not in the available sources).  The exact
windowed Fourier magnitudes are irrational, so the pipeline model is
parametrized by the pair of pure functions from the current sample window to
the one-sided magnitude spectrum and the normalized autocorrelation. -/
structure Analyzer where
  spectrum : List ℚ → List ℚ
  autocorrelation : List ℚ → List ℚ

/-- An analyzer producing all-zero magnitudes, as the true analyzer does on an
all-zero window; used to instantiate theorems at concrete inputs. -/
def zeroAnalyzer : Analyzer :=
  { spectrum := fun _ => List.replicate (FFT_SAMPLES / 2) 0
    autocorrelation := fun _ => List.replicate (FFT_SAMPLES / 2) 0 }

/-- Modelled from the spec: the peak search of section 4.4 — scan the buffer
excluding index 0 (the zero-lag / DC slot, always maximal and carrying no
rotation information) for the global maximum; returns `(index, value)`, with
`(0, 0)` when no strictly positive entry makes the search meaningful.  The
first index wins on ties. -/
def peakOf (l : List ℚ) : ℕ × ℚ :=
  (l.enum.drop 1).foldl (fun best p => if best.2 < p.2 then p else best) (0, 0)

/-- Modelled from the spec: the acceptance test of section 4.5 — a detection is
accepted only if the spectral magnitude at the (undivided) candidate bin
exceeds `amplitude_threshold` and the periodicity detector confirms a matching
period within the window's frequency resolution of one bin (0.5 Hz). -/
def Accepted (A : Analyzer) (p : Params) (w : List ℚ) : Prop :=
  p.amplitudeThreshold < (peakOf (A.spectrum w)).2 ∧
    p.autocorrelationThreshold < (peakOf (A.autocorrelation w)).2 ∧
    Nat.dist (peakOf (A.autocorrelation w)).1 (peakOf (A.spectrum w)).1 ≤ 1

instance (A : Analyzer) (p : Params) (w : List ℚ) : Decidable (Accepted A p w) :=
  inferInstanceAs (Decidable (_ < _ ∧ _ < _ ∧ _ ≤ _))

/-- Modelled from the spec: frequency (in Hz) of spectral bin `k`,
`k * FFT_FREQUENCY / FFT_SAMPLES` (section 3), i.e. `k / 2` with the
program's constants. -/
def binFrequency (k : ℕ) : ℚ := (k : ℚ) * FFT_FREQUENCY / FFT_SAMPLES

/-- Modelled from the spec: the detection buffer contents written when no
detection is accepted this cycle — both `{position, value}` pairs hold the
sentinel position `-1` (sections 3 and 4.5). -/
def sentinelDetections : List ℚ := [-1, 0, -1, 0]

/-- Modelled from the spec: the result of one analysis tick — new spectrum
buffer, new autocorrelation buffer, new detection buffer, and the RPM sample
emitted for this tick. -/
structure TickResult where
  spectrumBuf : List ℚ
  autocorrelationBuf : List ℚ
  detections : List ℚ
  sample : ℚ
deriving DecidableEq

/-- Modelled from the spec: one firing of the analysis clock (sections 4.3-4.6).
Runs the analyzer on the current window, overwrites the three caller-owned
buffers, and produces this tick's RPM sample.  On acceptance the detection
buffer holds the spectral candidate pair at indices 0-1 and the periodicity
pair at indices 2-3 (the caller reads indices 2-3, `__main__.py` lines
132-146), and the sample is `candidate_frequency × factor × 60`; otherwise the
sentinel is written and the placeholder sample 0 is emitted, keeping the
output cadence locked to `SAMPLING_FREQUENCY` (section 4.6's rate guarantee,
and the host's fixed-rate history at `__main__.py` line 59). -/
def analysisTick (A : Analyzer) (p : Params) (w : List ℚ) : TickResult :=
  let sp := A.spectrum w
  let ac := A.autocorrelation w
  let kp := peakOf sp
  let jp := peakOf ac
  if Accepted A p w then
    { spectrumBuf := sp
      autocorrelationBuf := ac
      detections := [binFrequency kp.1, kp.2, binFrequency jp.1, jp.2]
      sample := binFrequency kp.1 * p.frequencyFactor * 60 }
  else
    { spectrumBuf := sp
      autocorrelationBuf := ac
      detections := sentinelDetections
      sample := 0 }

/-- Modelled from the spec: the pipeline state of section 3 (PipelineState,
SampleWindow) together with the caller-owned display buffers it overwrites.
`origin` is the timestamp starting bin 0 (set by the first event), `lastT` the
most recent timestamp seen, `binsCompleted` the number of completed bins,
`currentBinCount` the event count of the partially filled current bin, and
`window` the most recent `FFT_SAMPLES` bin values in chronological order. -/
structure PipelineState where
  origin : Option ℕ
  lastT : ℕ
  binsCompleted : ℕ
  currentBinCount : ℕ
  window : List ℚ
  spectrumBuf : List ℚ
  autocorrelationBuf : List ℚ
  detections : List ℚ
deriving DecidableEq

/-- The initial state: empty binner, all-zero window (cold-start policy of spec
section 4.2), and the caller's freshly allocated buffers — `np.zeros(512)` for
spectrum and autocorrelation and `np.zeros(4)` for the detection buffer
(`__main__.py` lines 56-58). -/
def initState : PipelineState :=
  { origin := none
    lastT := 0
    binsCompleted := 0
    currentBinCount := 0
    window := List.replicate FFT_SAMPLES 0
    spectrumBuf := List.replicate (FFT_SAMPLES / 2) 0
    autocorrelationBuf := List.replicate (FFT_SAMPLES / 2) 0
    detections := List.replicate 4 0 }

/-- Modelled from the spec: bin index of timestamp `t` relative to the session
origin — one bin per `1 / FFT_FREQUENCY` seconds of signal time (section 3),
with timestamps in microseconds. -/
def binIndexFrom (origin t : ℕ) : ℕ :=
  (t - origin) * FFT_FREQUENCY / MICROSECONDS_PER_SECOND

/-- Modelled from the spec: the number of `1 / SAMPLING_FREQUENCY` intervals of
binned-signal time elapsed after `b` completed bins; the analysis clock has
fired once per such interval (section 4.6). -/
def ticksOfBins (b : ℕ) : ℕ := b * SAMPLING_FREQUENCY / FFT_FREQUENCY

/-- Modelled from the spec: the sliding window store's push (section 4.2) —
the oldest sample is dropped and the new bin value appended. -/
def pushWindow (w : List ℚ) (v : ℚ) : List ℚ := w.drop 1 ++ [v]

/-- Modelled from the spec: completing the current bin (sections 4.1, 4.2,
4.6).  The bin's event count is pushed into the window; if this bin crosses an
analysis-clock boundary, the analyzers run once and one RPM sample is emitted. -/
def closeOneBin (A : Analyzer) (p : Params) (s : PipelineState) :
    PipelineState × List ℚ :=
  let w := pushWindow s.window (s.currentBinCount : ℚ)
  let b := s.binsCompleted + 1
  if ticksOfBins s.binsCompleted < ticksOfBins b then
    let r := analysisTick A p w
    ({ s with
        window := w
        binsCompleted := b
        currentBinCount := 0
        spectrumBuf := r.spectrumBuf
        autocorrelationBuf := r.autocorrelationBuf
        detections := r.detections },
      [r.sample])
  else
    ({ s with window := w, binsCompleted := b, currentBinCount := 0 }, [])

/-- Modelled from the spec: completing `n` consecutive bins (a batch may span
zero, one, or many bin boundaries, section 4.1); bins after the first are
empty. -/
def closeBins (A : Analyzer) (p : Params) (s : PipelineState) :
    ℕ → PipelineState × List ℚ
  | 0 => (s, [])
  | n + 1 =>
    let r := closeOneBin A p s
    let r2 := closeBins A p r.1 n
    (r2.1, r.2 ++ r2.2)

/-- Modelled from the spec: folding one event into the binner (section 4.1).
The first event fixes the bin origin; an event in the current bin increments
its count; an event past the current bin completes the intervening bins and
starts a new one. -/
def ingestEvent (A : Analyzer) (p : Params) (s : PipelineState) (e : Event) :
    PipelineState × List ℚ :=
  match s.origin with
  | none =>
    ({ s with origin := some e.t, lastT := e.t, currentBinCount := 1 }, [])
  | some o =>
    let target := binIndexFrom o e.t
    if target ≤ s.binsCompleted then
      ({ s with currentBinCount := s.currentBinCount + 1, lastT := e.t }, [])
    else
      let r := closeBins A p s (target - s.binsCompleted)
      ({ r.1 with currentBinCount := r.1.currentBinCount + 1, lastT := e.t }, r.2)

/-- Modelled from the spec: feeding a whole batch through the binner, collecting
the RPM samples of every analysis-clock boundary crossed (section 4.6 steps
1-3). -/
def processEvents (A : Analyzer) (p : Params) (s : PipelineState)
    (es : List Event) : PipelineState × List ℚ :=
  es.foldl (fun acc e =>
    let r := ingestEvent A p acc.1 e
    (r.1, acc.2 ++ r.2)) (s, [])

/-- Modelled from the spec: a batch is well-formed when its timestamps are
non-decreasing and do not precede the last timestamp already consumed
(sections 3 and 7 (b)). -/
def sortedFromB (t : ℕ) : List Event → Bool
  | [] => true
  | e :: rest => t ≤ e.t && sortedFromB e.t rest

/-- Propositional form of the batch well-formedness check. -/
def SortedFrom (t : ℕ) (es : List Event) : Prop :=
  sortedFromB t es = true

instance (t : ℕ) (es : List Event) : Decidable (SortedFrom t es) :=
  inferInstanceAs (Decidable (_ = true))

/-- Modelled from the spec: the single exposed operation (section 6).
Parameters are clamped (section 7 (a)); a batch with decreasing timestamps is
ignored (section 7 (b)); otherwise all events are folded in and the RPM
samples of the boundaries crossed are returned, `none` signalling that no
boundary was crossed. -/
def process (A : Analyzer) (p : Params) (s : PipelineState) (es : List Event) :
    PipelineState × Option (List ℚ) :=
  let q := clampParams p
  if SortedFrom s.lastT es then
    let r := processEvents A q s es
    (r.1, if r.2 = [] then none else some r.2)
  else
    (s, none)

/-- A session: successive `process` calls on a list of batches, concatenating
the returned RPM sequences (a `none` return contributes nothing). -/
def processCalls (A : Analyzer) (p : Params) (s : PipelineState)
    (batches : List (List Event)) : PipelineState × List ℚ :=
  batches.foldl (fun acc es =>
    let r := process A p acc.1 es
    (r.1, acc.2 ++ r.2.getD [])) (s, [])

/-- The host's RPM history buffer as allocated at `__main__.py` line 59:
`np.zeros(300)` — 30 seconds at `SAMPLING_FREQUENCY` (10 Hz). -/
def rpmsInitial : List ℚ := List.replicate 300 0

/-- The first slice assignment of the host's rolling-history update,
`__main__.py` line 148: `rpms[0 : -len(new_rpms)] = rpms[len(new_rpms) :]` —
indices `0 .. length - len - 1` receive the last `length - len` old values,
the final `len` slots keep their old values. -/
def shiftLeftAssign (buf : List ℚ) (len : ℕ) : List ℚ :=
  (buf.drop len).take (buf.length - len) ++ buf.drop (buf.length - len)

/-- The second slice assignment of the host's rolling-history update,
`__main__.py` line 149: `rpms[-len(new_rpms) :] = new_rpms` — the final `len`
slots receive the new samples. -/
def assignTail (buf : List ℚ) (new : List ℚ) : List ℚ :=
  buf.take (buf.length - new.length) ++ new

/-- The host's rolling-history update, `__main__.py` lines 147-149, composing
the two slice assignments. -/
def hostUpdateRpms (buf : List ℚ) (new : List ℚ) : List ℚ :=
  assignTail (shiftLeftAssign buf new.length) new

/-- The timestamp of the last event of `es`, or `t` when `es` is empty. -/
def lastTimestamp (es : List Event) (t : ℕ) : ℕ :=
  es.foldl (fun _ e => e.t) t

/-- Modelled from the spec: the return-value convention of `process`
(section 6) — an empty sample list is signalled as `none` (no analysis-clock
boundary was crossed). -/
def wrapOpt (l : List ℚ) : Option (List ℚ) :=
  if l = [] then none else some l

/-- The three possible contents of the detection buffer during a session with
analyzer `A` and (clamped) parameters `q`: still the caller's initial zeros
(never written), the sentinel write, or an accepted analysis tick's write, in
which the periodicity pair at indices 2-3 holds the frequency-axis position of
that tick's autocorrelation peak together with the peak's value (the spectral
pair sits at indices 0-1). -/
def MarkerState (A : Analyzer) (q : Params) (d : List ℚ) : Prop :=
  d = initState.detections ∨ d = sentinelDetections ∨
    ∃ w, Accepted A q w ∧
      d = [binFrequency (peakOf (A.spectrum w)).1, (peakOf (A.spectrum w)).2,
        binFrequency (peakOf (A.autocorrelation w)).1,
        (peakOf (A.autocorrelation w)).2]

/-- Binner coherence invariant: the session origin is `t0`, the completed-bin
counter agrees with the last timestamp consumed, and time has not run
backwards past the origin. -/
def Coherent (t0 : ℕ) (s : PipelineState) : Prop :=
  s.origin = some t0 ∧ s.binsCompleted = binIndexFrom t0 s.lastT ∧ t0 ≤ s.lastT

/-- The cursor guard of `to_python`, `__main__.py` lines 230-241: a new cursor
fraction is stored only when it lies in `[0, 1]`; otherwise the old value is
kept. -/
def storeCursor (old v : ℚ) : ℚ := if 0 ≤ v ∧ v ≤ 1 then v else old

/-- The cursor-to-index computation of the camera loop, `__main__.py` lines
177-193: `int(round((len(buf) - 1) * cursor))`.  (Python rounds half to even
and Mathlib's `round` rounds half up; both agree with the floor/ceiling bounds
used below.) -/
def cursorIndex (n : ℕ) (c : ℚ) : ℤ := round (((n : ℚ) - 1) * c)

/-! ### Arithmetic of the two clocks -/

lemma ticksOfBins_mono {a b : ℕ} (h : a ≤ b) : ticksOfBins a ≤ ticksOfBins b := by
  simp only [ticksOfBins, SAMPLING_FREQUENCY, FFT_FREQUENCY]
  omega

lemma ticksOfBins_succ_le (b : ℕ) : ticksOfBins (b + 1) ≤ ticksOfBins b + 1 := by
  simp only [ticksOfBins, SAMPLING_FREQUENCY, FFT_FREQUENCY]
  omega

lemma ticksOfBins_zero : ticksOfBins 0 = 0 := rfl

lemma binIndexFrom_mono {o a b : ℕ} (h : a ≤ b) : binIndexFrom o a ≤ binIndexFrom o b := by
  simp only [binIndexFrom, FFT_FREQUENCY, MICROSECONDS_PER_SECOND]
  omega

lemma binIndexFrom_self (o : ℕ) : binIndexFrom o o = 0 := by
  simp only [binIndexFrom, FFT_FREQUENCY, MICROSECONDS_PER_SECOND]
  omega

/-! ### Completing bins -/

lemma closeOneBin_fst (A : Analyzer) (p : Params) (s : PipelineState) :
    (closeOneBin A p s).1.binsCompleted = s.binsCompleted + 1 ∧
      (closeOneBin A p s).1.origin = s.origin ∧
      (closeOneBin A p s).1.lastT = s.lastT := by
  simp only [closeOneBin]
  split <;> simp

lemma closeOneBin_out_length (A : Analyzer) (p : Params) (s : PipelineState) :
    (closeOneBin A p s).2.length =
      ticksOfBins (s.binsCompleted + 1) - ticksOfBins s.binsCompleted := by
  simp only [closeOneBin]
  split
  · next h =>
    have := ticksOfBins_succ_le s.binsCompleted
    simp
    omega
  · next h =>
    have := ticksOfBins_mono (Nat.le_succ s.binsCompleted)
    simp
    omega

lemma closeBins_fst (A : Analyzer) (p : Params) (s : PipelineState) (n : ℕ) :
    (closeBins A p s n).1.binsCompleted = s.binsCompleted + n ∧
      (closeBins A p s n).1.origin = s.origin ∧
      (closeBins A p s n).1.lastT = s.lastT := by
  induction n generalizing s with
  | zero => simp [closeBins]
  | succ n ih =>
    simp only [closeBins]
    obtain ⟨h1, h2, h3⟩ := ih (closeOneBin A p s).1
    obtain ⟨g1, g2, g3⟩ := closeOneBin_fst A p s
    refine ⟨?_, ?_, ?_⟩
    · rw [h1, g1]; omega
    · rw [h2, g2]
    · rw [h3, g3]

lemma closeBins_out_length (A : Analyzer) (p : Params) (s : PipelineState) (n : ℕ) :
    (closeBins A p s n).2.length =
      ticksOfBins (s.binsCompleted + n) - ticksOfBins s.binsCompleted := by
  induction n generalizing s with
  | zero => simp [closeBins]
  | succ n ih =>
    simp only [closeBins, List.length_append]
    rw [closeOneBin_out_length, ih (closeOneBin A p s).1,
      (closeOneBin_fst A p s).1]
    have e1 : s.binsCompleted + 1 + n = s.binsCompleted + (n + 1) := by omega
    rw [e1]
    have h1 := ticksOfBins_mono (show s.binsCompleted ≤ s.binsCompleted + 1 by omega)
    have h4 := ticksOfBins_mono
      (show s.binsCompleted + 1 ≤ s.binsCompleted + (n + 1) by omega)
    omega

/-! ### Folding events -/

lemma ingestEvent_lastT (A : Analyzer) (p : Params) (s : PipelineState) (e : Event) :
    (ingestEvent A p s e).1.lastT = e.t := by
  simp only [ingestEvent]
  cases s.origin with
  | none => simp
  | some o => dsimp only; split <;> simp

lemma processEvents_nil (A : Analyzer) (p : Params) (s : PipelineState) :
    processEvents A p s [] = (s, []) := rfl

lemma processEvents_acc (A : Analyzer) (p : Params) (es : List Event)
    (s : PipelineState) (o : List ℚ) :
    es.foldl (fun acc e =>
        let r := ingestEvent A p acc.1 e
        (r.1, acc.2 ++ r.2)) (s, o) =
      ((processEvents A p s es).1, o ++ (processEvents A p s es).2) := by
  induction es generalizing s o with
  | nil => simp [processEvents]
  | cons e rest ih =>
    simp only [processEvents, List.foldl_cons]
    rw [ih (ingestEvent A p s e).1 (o ++ (ingestEvent A p s e).2),
      ih (ingestEvent A p s e).1 ([] ++ (ingestEvent A p s e).2)]
    simp

lemma processEvents_cons (A : Analyzer) (p : Params) (s : PipelineState)
    (e : Event) (rest : List Event) :
    processEvents A p s (e :: rest) =
      ((processEvents A p (ingestEvent A p s e).1 rest).1,
        (ingestEvent A p s e).2 ++
          (processEvents A p (ingestEvent A p s e).1 rest).2) := by
  simp only [processEvents, List.foldl_cons]
  rw [show ((s, []) : PipelineState × List ℚ).2 ++ (ingestEvent A p s e).2 =
    [] ++ (ingestEvent A p s e).2 from rfl]
  exact processEvents_acc A p rest (ingestEvent A p s e).1 _

lemma processEvents_append (A : Analyzer) (p : Params) (s : PipelineState)
    (xs ys : List Event) :
    processEvents A p s (xs ++ ys) =
      ((processEvents A p (processEvents A p s xs).1 ys).1,
        (processEvents A p s xs).2 ++
          (processEvents A p (processEvents A p s xs).1 ys).2) := by
  induction xs generalizing s with
  | nil => simp [processEvents_nil]
  | cons e rest ih =>
    rw [List.cons_append, processEvents_cons, processEvents_cons, ih]
    simp

lemma processEvents_lastT (A : Analyzer) (p : Params) (s : PipelineState)
    (es : List Event) :
    (processEvents A p s es).1.lastT = lastTimestamp es s.lastT := by
  induction es generalizing s with
  | nil => simp [processEvents_nil, lastTimestamp]
  | cons e rest ih =>
    rw [processEvents_cons]
    simp only [lastTimestamp, List.foldl_cons]
    rw [ih (ingestEvent A p s e).1]
    simp [lastTimestamp, ingestEvent_lastT]

/-! ### Sorted batches and the output count -/

lemma sortedFromB_cons {t : ℕ} {e : Event} {rest : List Event} :
    sortedFromB t (e :: rest) = true ↔ t ≤ e.t ∧ sortedFromB e.t rest = true := by
  simp [sortedFromB, Bool.and_eq_true, decide_eq_true_eq]

lemma lastTimestamp_cons (e : Event) (rest : List Event) (t : ℕ) :
    lastTimestamp (e :: rest) t = lastTimestamp rest e.t := rfl

lemma sortedFrom_le_lastTimestamp {t : ℕ} {es : List Event}
    (h : SortedFrom t es) : t ≤ lastTimestamp es t := by
  induction es generalizing t with
  | nil => simp [lastTimestamp]
  | cons e rest ih =>
    rw [SortedFrom, sortedFromB_cons] at h
    rw [lastTimestamp_cons]
    exact le_trans h.1 (ih h.2)

lemma ingestEvent_coherent (A : Analyzer) (p : Params) {t0 : ℕ}
    (s : PipelineState) (e : Event) (hc : Coherent t0 s) (he : s.lastT ≤ e.t) :
    Coherent t0 (ingestEvent A p s e).1 ∧
      (ingestEvent A p s e).2.length =
        ticksOfBins (binIndexFrom t0 e.t) - ticksOfBins (binIndexFrom t0 s.lastT) := by
  obtain ⟨ho, hb, ht⟩ := hc
  have hmono : binIndexFrom t0 s.lastT ≤ binIndexFrom t0 e.t := binIndexFrom_mono he
  simp only [ingestEvent, ho]
  split
  · next hle =>
    have heq : binIndexFrom t0 e.t = s.binsCompleted := by omega
    refine ⟨⟨rfl, ?_, ?_⟩, ?_⟩
    · simpa using heq.symm
    · exact le_trans ht he
    · simp [heq, hb]
  · next hgt =>
    have hlt : s.binsCompleted < binIndexFrom t0 e.t := by omega
    obtain ⟨g1, g2, g3⟩ := closeBins_fst A p s (binIndexFrom t0 e.t - s.binsCompleted)
    refine ⟨⟨?_, ?_, ?_⟩, ?_⟩
    · simpa using g2.trans ho
    · simp only
      rw [g1]
      omega
    · simp only
      exact le_trans ht he
    · simp only
      rw [closeBins_out_length]
      congr 1
      · congr 1
        omega
      · rw [hb]

lemma processEvents_coherent (A : Analyzer) (p : Params) {t0 : ℕ}
    (s : PipelineState) (es : List Event) (hc : Coherent t0 s)
    (hs : SortedFrom s.lastT es) :
    Coherent t0 (processEvents A p s es).1 ∧
      (processEvents A p s es).2.length =
        ticksOfBins (binIndexFrom t0 (lastTimestamp es s.lastT)) -
          ticksOfBins (binIndexFrom t0 s.lastT) := by
  induction es generalizing s with
  | nil => simpa [processEvents_nil, lastTimestamp] using hc
  | cons e rest ih =>
    rw [SortedFrom, sortedFromB_cons] at hs
    obtain ⟨he, hrest⟩ := hs
    obtain ⟨hc1, hlen1⟩ := ingestEvent_coherent A p s e hc he
    have hlt : (ingestEvent A p s e).1.lastT = e.t := ingestEvent_lastT A p s e
    have hrest' : SortedFrom (ingestEvent A p s e).1.lastT rest := by
      rw [hlt]; exact hrest
    obtain ⟨hc2, hlen2⟩ := ih (ingestEvent A p s e).1 hc1 hrest'
    rw [processEvents_cons]
    refine ⟨hc2, ?_⟩
    simp only [List.length_append, lastTimestamp_cons]
    rw [hlen1, hlen2, hlt]
    have m1 : binIndexFrom t0 s.lastT ≤ binIndexFrom t0 e.t := binIndexFrom_mono he
    have m2 : binIndexFrom t0 e.t ≤ binIndexFrom t0 (lastTimestamp rest e.t) :=
      binIndexFrom_mono (sortedFrom_le_lastTimestamp hrest)
    have t1 := ticksOfBins_mono m1
    have t2 := ticksOfBins_mono m2
    omega

lemma ingestEvent_init (A : Analyzer) (p : Params) (e : Event) :
    ingestEvent A p initState e =
      ({ initState with origin := some e.t, lastT := e.t, currentBinCount := 1 }, []) := by
  simp [ingestEvent, initState]

lemma processEvents_init_count (A : Analyzer) (p : Params) (e : Event)
    (rest : List Event) (hs : SortedFrom e.t rest) :
    (processEvents A p initState (e :: rest)).2.length =
      ticksOfBins (binIndexFrom e.t (lastTimestamp rest e.t)) := by
  rw [processEvents_cons, ingestEvent_init]
  have hc : Coherent e.t
      ({ initState with origin := some e.t, lastT := e.t, currentBinCount := 1 }) := by
    refine ⟨rfl, ?_, le_refl _⟩
    simp [initState, binIndexFrom_self]
  obtain ⟨_, hlen⟩ := processEvents_coherent A p _ rest hc hs
  simp only [List.length_append, List.length_nil]
  rw [hlen]
  simp [binIndexFrom_self, ticksOfBins_zero]

/-! ### The call wrapper and whole sessions -/

lemma wrapOpt_getD (l : List ℚ) : (wrapOpt l).getD [] = l := by
  simp only [wrapOpt]
  split <;> simp_all

lemma process_sorted (A : Analyzer) (p : Params) (s : PipelineState)
    (es : List Event) (h : SortedFrom s.lastT es) :
    process A p s es =
      ((processEvents A (clampParams p) s es).1,
        wrapOpt (processEvents A (clampParams p) s es).2) := by
  simp only [process, wrapOpt]
  rw [if_pos h]

lemma sortedFromB_append (t : ℕ) (xs ys : List Event) :
    sortedFromB t (xs ++ ys) =
      (sortedFromB t xs && sortedFromB (lastTimestamp xs t) ys) := by
  induction xs generalizing t with
  | nil => simp [sortedFromB, lastTimestamp]
  | cons e rest ih =>
    simp only [List.cons_append, sortedFromB, lastTimestamp_cons, List.append_eq,
      ih, Bool.and_assoc]

lemma processCalls_acc (A : Analyzer) (p : Params) (batches : List (List Event))
    (s : PipelineState) (o : List ℚ) :
    batches.foldl (fun acc es =>
        let r := process A p acc.1 es
        (r.1, acc.2 ++ r.2.getD [])) (s, o) =
      ((processCalls A p s batches).1, o ++ (processCalls A p s batches).2) := by
  induction batches generalizing s o with
  | nil => simp [processCalls]
  | cons b rest ih =>
    simp only [processCalls, List.foldl_cons]
    rw [ih (process A p s b).1 (o ++ (process A p s b).2.getD []),
      ih (process A p s b).1 ([] ++ (process A p s b).2.getD [])]
    simp

lemma processCalls_cons (A : Analyzer) (p : Params) (s : PipelineState)
    (b : List Event) (rest : List (List Event)) :
    processCalls A p s (b :: rest) =
      ((processCalls A p (process A p s b).1 rest).1,
        (process A p s b).2.getD [] ++
          (processCalls A p (process A p s b).1 rest).2) := by
  simp only [processCalls, List.foldl_cons]
  rw [show ((s, []) : PipelineState × List ℚ).2 ++ (process A p s b).2.getD [] =
    [] ++ (process A p s b).2.getD [] from rfl]
  exact processCalls_acc A p rest (process A p s b).1 _

lemma processCalls_join (A : Analyzer) (p : Params) (s : PipelineState)
    (parts : List (List Event)) (h : SortedFrom s.lastT parts.flatten) :
    processCalls A p s parts =
      ((processEvents A (clampParams p) s parts.flatten).1,
        (processEvents A (clampParams p) s parts.flatten).2) := by
  induction parts generalizing s with
  | nil => simp [processCalls, processEvents_nil]
  | cons b rest ih =>
    rw [List.flatten_cons] at h
    have hsplit := sortedFromB_append s.lastT b rest.flatten
    rw [SortedFrom] at h
    have h2 : (sortedFromB s.lastT b &&
        sortedFromB (lastTimestamp b s.lastT) rest.flatten) = true := by
      rw [← hsplit]; exact h
    obtain ⟨hb, hrest⟩ : SortedFrom s.lastT b ∧
        SortedFrom (lastTimestamp b s.lastT) rest.flatten := by
      rw [SortedFrom, SortedFrom]
      simpa using h2
    rw [processCalls_cons, process_sorted A p s b hb]
    have hlt : (processEvents A (clampParams p) s b).1.lastT =
        lastTimestamp b s.lastT := processEvents_lastT A (clampParams p) s b
    have hrest' : SortedFrom (processEvents A (clampParams p) s b).1.lastT rest.flatten := by
      rw [hlt]; exact hrest
    rw [ih (processEvents A (clampParams p) s b).1 hrest']
    rw [List.flatten_cons, processEvents_append]
    simp [wrapOpt_getD]

/-! ### The peak search -/

lemma foldl_peak_mem (ps : List (ℕ × ℚ)) (b : ℕ × ℚ) :
    ps.foldl (fun best p => if best.2 < p.2 then p else best) b = b ∨
      ps.foldl (fun best p => if best.2 < p.2 then p else best) b ∈ ps := by
  induction ps generalizing b with
  | nil => left; rfl
  | cons q ps ih =>
    simp only [List.foldl_cons]
    rcases ih (if b.2 < q.2 then q else b) with h | h
    · rw [h]
      split

      · right; exact List.mem_cons_self q ps
      · left; rfl
    · right; exact List.mem_cons_of_mem q h

lemma peakOf_eq_or_mem (l : List ℚ) :
    peakOf l = (0, 0) ∨ peakOf l ∈ l.enum.drop 1 :=
  foldl_peak_mem (l.enum.drop 1) (0, 0)

lemma peakOf_snd_zero_or_mem (l : List ℚ) :
    (peakOf l).2 = 0 ∨ (peakOf l).2 ∈ l := by
  rcases peakOf_eq_or_mem l with h | h
  · left; rw [h]
  · right
    have h1 : peakOf l ∈ l.enum := List.mem_of_mem_drop h
    have h2 : l.enum.map Prod.snd = l := List.enum_map_snd l
    have h3 := List.mem_map_of_mem Prod.snd h1
    rw [h2] at h3
    exact h3

lemma peakOf_snd_le {l : List ℚ} {c : ℚ} (hc : 0 ≤ c)
    (h : ∀ x ∈ l, x ≤ c) : (peakOf l).2 ≤ c := by
  rcases peakOf_snd_zero_or_mem l with h0 | hm
  · rw [h0]; exact hc
  · exact h _ hm

lemma not_accepted_of_spectrum_le (A : Analyzer) (p : Params) (w : List ℚ)
    (hc : 0 ≤ p.amplitudeThreshold)
    (h : ∀ x ∈ A.spectrum w, x ≤ p.amplitudeThreshold) : ¬ Accepted A p w :=
  fun hA => absurd hA.1 (not_lt.mpr (peakOf_snd_le hc h))

/-! ### One analysis tick -/

lemma analysisTick_not_accepted (A : Analyzer) (p : Params) (w : List ℚ)
    (h : ¬ Accepted A p w) :
    (analysisTick A p w).sample = 0 ∧
      (analysisTick A p w).detections = sentinelDetections := by
  simp only [analysisTick]
  rw [if_neg h]
  exact ⟨rfl, rfl⟩

lemma analysisTick_accepted (A : Analyzer) (p : Params) (w : List ℚ)
    (h : Accepted A p w) :
    (analysisTick A p w).sample =
        binFrequency (peakOf (A.spectrum w)).1 * p.frequencyFactor * 60 ∧
      (analysisTick A p w).detections =
        [binFrequency (peakOf (A.spectrum w)).1, (peakOf (A.spectrum w)).2,
          binFrequency (peakOf (A.autocorrelation w)).1,
          (peakOf (A.autocorrelation w)).2] := by
  simp only [analysisTick]
  rw [if_pos h]
  exact ⟨rfl, rfl⟩

/-! ### Preservation of detection-buffer and sample properties along a run -/

lemma closeOneBin_pres (P : List ℚ → Prop) (Q : ℚ → Prop) (A : Analyzer)
    (p : Params) (hP : ∀ w, P (analysisTick A p w).detections)
    (hQ : ∀ w, Q (analysisTick A p w).sample)
    (s : PipelineState) (hs : P s.detections) :
    P (closeOneBin A p s).1.detections ∧ ∀ x ∈ (closeOneBin A p s).2, Q x := by
  simp only [closeOneBin]
  split
  · exact ⟨hP _, by simpa using hQ _⟩
  · exact ⟨hs, by simp⟩

lemma closeBins_pres (P : List ℚ → Prop) (Q : ℚ → Prop) (A : Analyzer)
    (p : Params) (hP : ∀ w, P (analysisTick A p w).detections)
    (hQ : ∀ w, Q (analysisTick A p w).sample)
    (s : PipelineState) (n : ℕ) (hs : P s.detections) :
    P (closeBins A p s n).1.detections ∧ ∀ x ∈ (closeBins A p s n).2, Q x := by
  induction n generalizing s with
  | zero => exact ⟨hs, by simp [closeBins]⟩
  | succ n ih =>
    obtain ⟨h1, h2⟩ := closeOneBin_pres P Q A p hP hQ s hs
    obtain ⟨h3, h4⟩ := ih (closeOneBin A p s).1 h1
    refine ⟨h3, ?_⟩
    simp only [closeBins, List.mem_append]
    rintro x (hx | hx)
    · exact h2 x hx
    · exact h4 x hx

lemma ingestEvent_pres (P : List ℚ → Prop) (Q : ℚ → Prop) (A : Analyzer)
    (p : Params) (hP : ∀ w, P (analysisTick A p w).detections)
    (hQ : ∀ w, Q (analysisTick A p w).sample)
    (s : PipelineState) (e : Event) (hs : P s.detections) :
    P (ingestEvent A p s e).1.detections ∧ ∀ x ∈ (ingestEvent A p s e).2, Q x := by
  simp only [ingestEvent]
  cases s.origin with
  | none => exact ⟨hs, by simp⟩
  | some o =>
    dsimp only
    split
    · exact ⟨hs, by simp⟩
    · obtain ⟨h1, h2⟩ := closeBins_pres P Q A p hP hQ s _ hs
      exact ⟨h1, h2⟩

lemma processEvents_pres (P : List ℚ → Prop) (Q : ℚ → Prop) (A : Analyzer)
    (p : Params) (hP : ∀ w, P (analysisTick A p w).detections)
    (hQ : ∀ w, Q (analysisTick A p w).sample)
    (s : PipelineState) (es : List Event) (hs : P s.detections) :
    P (processEvents A p s es).1.detections ∧
      ∀ x ∈ (processEvents A p s es).2, Q x := by
  induction es generalizing s with
  | nil => exact ⟨hs, by simp [processEvents_nil]⟩
  | cons e rest ih =>
    rw [processEvents_cons]
    obtain ⟨h1, h2⟩ := ingestEvent_pres P Q A p hP hQ s e hs
    obtain ⟨h3, h4⟩ := ih (ingestEvent A p s e).1 h1
    refine ⟨h3, ?_⟩
    simp only [List.mem_append]
    rintro x (hx | hx)
    · exact h2 x hx
    · exact h4 x hx

lemma process_pres (P : List ℚ → Prop) (Q : ℚ → Prop) (A : Analyzer)
    (p : Params) (hP : ∀ w, P (analysisTick A (clampParams p) w).detections)
    (hQ : ∀ w, Q (analysisTick A (clampParams p) w).sample)
    (s : PipelineState) (es : List Event) (hs : P s.detections) :
    P (process A p s es).1.detections ∧
      ∀ x ∈ (process A p s es).2.getD [], Q x := by
  simp only [process]
  split
  · obtain ⟨h1, h2⟩ := processEvents_pres P Q A (clampParams p) hP hQ s es hs
    refine ⟨h1, ?_⟩
    intro x hx
    rw [show (if (processEvents A (clampParams p) s es).2 = [] then none
        else some (processEvents A (clampParams p) s es).2) =
        wrapOpt (processEvents A (clampParams p) s es).2 from rfl,
      wrapOpt_getD] at hx
    exact h2 x hx
  · exact ⟨hs, by simp⟩

lemma processCalls_pres (P : List ℚ → Prop) (Q : ℚ → Prop) (A : Analyzer)
    (p : Params) (hP : ∀ w, P (analysisTick A (clampParams p) w).detections)
    (hQ : ∀ w, Q (analysisTick A (clampParams p) w).sample)
    (s : PipelineState) (batches : List (List Event)) (hs : P s.detections) :
    P (processCalls A p s batches).1.detections ∧
      ∀ x ∈ (processCalls A p s batches).2, Q x := by
  induction batches generalizing s with
  | nil => exact ⟨hs, by simp [processCalls]⟩
  | cons b rest ih =>
    rw [processCalls_cons]
    obtain ⟨h1, h2⟩ := process_pres P Q A p hP hQ s b hs
    obtain ⟨h3, h4⟩ := ih (process A p s b).1 h1
    refine ⟨h3, ?_⟩
    simp only [List.mem_append]
    rintro x (hx | hx)
    · exact h2 x hx
    · exact h4 x hx

/-! ### The harmonic factor only scales the emitted samples -/

lemma accepted_factor_eq (A : Analyzer) (amp act f g : ℚ) (w : List ℚ) :
    Accepted A ⟨amp, act, f⟩ w ↔ Accepted A ⟨amp, act, g⟩ w := Iff.rfl

lemma analysisTick_factor (A : Analyzer) (amp act f : ℚ) (w : List ℚ) :
    analysisTick A ⟨amp, act, f⟩ w =
      { analysisTick A ⟨amp, act, 1⟩ w with
        sample := f * (analysisTick A ⟨amp, act, 1⟩ w).sample } := by
  by_cases hA : Accepted A ⟨amp, act, f⟩ w
  · have hA1 : Accepted A ⟨amp, act, 1⟩ w := hA
    simp only [analysisTick, if_pos hA, if_pos hA1]
    congr 1
    ring
  · have hA1 : ¬ Accepted A ⟨amp, act, 1⟩ w := hA
    simp only [analysisTick, if_neg hA, if_neg hA1]
    congr 1
    ring

lemma closeOneBin_factor (A : Analyzer) (amp act f : ℚ) (s : PipelineState) :
    closeOneBin A ⟨amp, act, f⟩ s =
      ((closeOneBin A ⟨amp, act, 1⟩ s).1,
        (closeOneBin A ⟨amp, act, 1⟩ s).2.map (fun x => f * x)) := by
  simp only [closeOneBin, analysisTick_factor A amp act f]
  split <;> simp

lemma closeBins_factor (A : Analyzer) (amp act f : ℚ) (s : PipelineState) (n : ℕ) :
    closeBins A ⟨amp, act, f⟩ s n =
      ((closeBins A ⟨amp, act, 1⟩ s n).1,
        (closeBins A ⟨amp, act, 1⟩ s n).2.map (fun x => f * x)) := by
  induction n generalizing s with
  | zero => simp [closeBins]
  | succ n ih =>
    simp only [closeBins, closeOneBin_factor A amp act f, ih]
    simp

lemma ingestEvent_factor (A : Analyzer) (amp act f : ℚ) (s : PipelineState)
    (e : Event) :
    ingestEvent A ⟨amp, act, f⟩ s e =
      ((ingestEvent A ⟨amp, act, 1⟩ s e).1,
        (ingestEvent A ⟨amp, act, 1⟩ s e).2.map (fun x => f * x)) := by
  simp only [ingestEvent]
  cases s.origin with
  | none => simp
  | some o =>
    dsimp only
    split
    · simp
    · simp [closeBins_factor A amp act f]

lemma processEvents_factor (A : Analyzer) (amp act f : ℚ) (s : PipelineState)
    (es : List Event) :
    processEvents A ⟨amp, act, f⟩ s es =
      ((processEvents A ⟨amp, act, 1⟩ s es).1,
        (processEvents A ⟨amp, act, 1⟩ s es).2.map (fun x => f * x)) := by
  induction es generalizing s with
  | nil => simp [processEvents_nil]
  | cons e rest ih =>
    rw [processEvents_cons, processEvents_cons, ingestEvent_factor A amp act f]
    simp only
    rw [ih (ingestEvent A ⟨amp, act, 1⟩ s e).1]
    simp

/-! ### Clamping -/

lemma clampParams_valid (p : Params) : ValidParams (clampParams p) := by
  unfold ValidParams clampParams
  dsimp only
  refine ⟨?_, ?_, ?_, ?_, ?_⟩
  · split
    · exact le_refl 0
    · next h => exact not_lt.mp h
  · split
    · exact le_refl 0
    · next h =>
      split
      · exact zero_le_one
      · exact not_lt.mp h
  · split
    · exact zero_le_one
    · split
      · exact le_refl 1
      · next h2 => exact not_lt.mp h2
  · split
    · next h => exact h.1
    · exact zero_lt_one
  · split
    · next h => exact h.2
    · exact le_refl 1

lemma clampParams_of_valid {p : Params} (h : ValidParams p) :
    clampParams p = p := by
  obtain ⟨h1, h2, h3, h4, h5⟩ := h
  simp only [clampParams, if_neg (not_lt.mpr h1), if_neg (not_lt.mpr h2),
    if_neg (not_lt.mpr h3), if_pos (And.intro h4 h5)]

lemma clampParams_idem (p : Params) : clampParams (clampParams p) = clampParams p :=
  clampParams_of_valid (clampParams_valid p)

lemma process_clamp (A : Analyzer) (p : Params) (s : PipelineState)
    (es : List Event) : process A p s es = process A (clampParams p) s es := by
  simp only [process, clampParams_idem]

/-! ### The host's rolling history -/

lemma shiftLeftAssign_eq (buf : List ℚ) (len : ℕ) :
    shiftLeftAssign buf len = buf.drop len ++ buf.drop (buf.length - len) := by
  simp only [shiftLeftAssign]
  congr 1
  apply List.take_of_length_le
  simp

lemma hostUpdateRpms_eq (buf new : List ℚ) (h : new.length ≤ buf.length) :
    hostUpdateRpms buf new = buf.drop new.length ++ new := by
  simp only [hostUpdateRpms, assignTail, shiftLeftAssign_eq buf new.length]
  have hlen : (buf.drop new.length ++ buf.drop (buf.length - new.length)).length =
      buf.length := by
    simp only [List.length_append, List.length_drop]
    omega
  rw [hlen]
  congr 1
  have h1 : (buf.drop new.length).length = buf.length - new.length := by simp
  rw [List.take_append_eq_append_take, h1]
  simp

lemma hostUpdateRpms_length (buf new : List ℚ) (h : new.length ≤ buf.length) :
    (hostUpdateRpms buf new).length = buf.length := by
  rw [hostUpdateRpms_eq buf new h]
  simp only [List.length_append, List.length_drop]
  omega

/-! ### Remaining helper lemmas -/

lemma process_empty_batch (A : Analyzer) (p : Params) (s : PipelineState) :
    process A p s [] = (s, none) := by
  simp [process, processEvents_nil, SortedFrom, sortedFromB]

lemma zeroAnalyzer_not_accepted (p : Params) (hc : 0 ≤ p.amplitudeThreshold)
    (w : List ℚ) : ¬ Accepted zeroAnalyzer p w := by
  apply not_accepted_of_spectrum_le zeroAnalyzer p w hc
  intro x hx
  rw [List.eq_of_mem_replicate hx]
  exact hc

lemma eq_single_zero {l : List ℚ} (h1 : l.length = 1) (h0 : ∀ x ∈ l, x = 0) :
    l = [0] := by
  cases l with
  | nil => simp at h1
  | cons a rest =>
    cases rest with
    | nil => rw [h0 a (List.mem_singleton_self a)]
    | cons b r => simp at h1

lemma process_snd_eq_some {A : Analyzer} {p : Params} {s : PipelineState}
    {es : List Event} {l : List ℚ} (hs : SortedFrom s.lastT es)
    (hl : (processEvents A (clampParams p) s es).2 = l) (hne : l ≠ []) :
    (process A p s es).2 = some l := by
  rw [process_sorted A p s es hs, hl]
  simp only [wrapOpt]
  rw [if_neg hne]

lemma outputs_all_zero (p : Params) (s : PipelineState) (es : List Event) :
    ∀ x ∈ (processEvents zeroAnalyzer (clampParams p) s es).2, x = 0 := by
  have hQ : ∀ w, (analysisTick zeroAnalyzer (clampParams p) w).sample = 0 :=
    fun w => (analysisTick_not_accepted zeroAnalyzer (clampParams p) w
      (zeroAnalyzer_not_accepted (clampParams p) (clampParams_valid p).1 w)).1
  exact (processEvents_pres (fun _ => True) (fun x => x = 0) zeroAnalyzer
    (clampParams p) (fun _ => trivial) hQ s es trivial).2

lemma process_two_events_some_zero :
    (process zeroAnalyzer defaultParams initState
      [⟨0, 0, 0, true⟩, ⟨0, 0, 101563, true⟩]).2 = some [0] := by
  have hs : SortedFrom initState.lastT
      [⟨0, 0, 0, true⟩, ⟨0, 0, 101563, true⟩] := by decide
  have hrest : SortedFrom (0 : ℕ) [(⟨0, 0, 101563, true⟩ : Event)] := by decide
  have hcount := processEvents_init_count zeroAnalyzer (clampParams defaultParams)
    ⟨0, 0, 0, true⟩ [⟨0, 0, 101563, true⟩] hrest
  have hlen : (processEvents zeroAnalyzer (clampParams defaultParams) initState
      [⟨0, 0, 0, true⟩, ⟨0, 0, 101563, true⟩]).2.length = 1 := by
    rw [hcount]
    decide
  have hzero := outputs_all_zero defaultParams initState
    [⟨0, 0, 0, true⟩, ⟨0, 0, 101563, true⟩]
  exact process_snd_eq_some hs (eq_single_zero hlen hzero) (by simp)

lemma rate_floor_bound (t : ℕ) :
    (t * 512 / 1000000) * 10 / 512 ≤ t * 10 / 1000000 ∧
      t * 10 / 1000000 ≤ (t * 512 / 1000000) * 10 / 512 + 1 := by
  omega

lemma foldl_storeCursor_mem (vs : List ℚ) :
    0 ≤ vs.foldl storeCursor 0 ∧ vs.foldl storeCursor 0 ≤ 1 := by
  have general : ∀ (c : ℚ), 0 ≤ c ∧ c ≤ 1 →
      0 ≤ vs.foldl storeCursor c ∧ vs.foldl storeCursor c ≤ 1 := by
    induction vs with
    | nil => intro c hc; exact hc
    | cons v rest ih =>
      intro c hc
      simp only [List.foldl_cons]
      apply ih
      simp only [storeCursor]
      split
      · next h => exact h
      · exact hc
  exact general 0 ⟨le_refl 0, by norm_num⟩

lemma cursorIndex_bounds {n : ℕ} (hn : 1 ≤ n) {c : ℚ} (h0 : 0 ≤ c) (h1 : c ≤ 1) :
    0 ≤ cursorIndex n c ∧ cursorIndex n c ≤ (n : ℤ) - 1 := by
  have hn1 : (1 : ℚ) ≤ (n : ℚ) := by exact_mod_cast hn
  have hx0 : 0 ≤ ((n : ℚ) - 1) * c := mul_nonneg (by linarith) h0
  have hx1 : ((n : ℚ) - 1) * c ≤ (n : ℚ) - 1 :=
    mul_le_of_le_one_right (by linarith) h1
  unfold cursorIndex
  constructor
  · have hlt := sub_half_lt_round (((n : ℚ) - 1) * c)
    by_contra hneg
    push_neg at hneg
    have h2 : round (((n : ℚ) - 1) * c) ≤ -1 := by omega
    have h3 : ((round (((n : ℚ) - 1) * c) : ℤ) : ℚ) ≤ -1 := by exact_mod_cast h2
    linarith
  · have hr := round_le_add_half (((n : ℚ) - 1) * c)
    by_contra hgt
    push_neg at hgt
    have h2 : (n : ℤ) ≤ round (((n : ℚ) - 1) * c) := by omega
    have h3 : ((n : ℤ) : ℚ) ≤ ((round (((n : ℚ) - 1) * c) : ℤ) : ℚ) := by
      exact_mod_cast h2
    push_cast at h3
    linarith

/-! ### The claims -/

/-- C1: batching invariance of `process` — splitting a fixed event stream into
sub-batches that preserve global timestamp order yields the same concatenated
sequence of RPM outputs and the same final pipeline state (including the
spectrum, autocorrelation, and detection buffers) as one `process` call on the
whole stream. -/
theorem c1_batching_invariance (A : Analyzer) (p : Params) (s : PipelineState)
    (parts : List (List Event)) (h : SortedFrom s.lastT parts.flatten) :
    (processCalls A p s parts).1 = (process A p s parts.flatten).1 ∧
      (processCalls A p s parts).2 = (process A p s parts.flatten).2.getD [] := by
  rw [processCalls_join A p s parts h, process_sorted A p s parts.flatten h,
    wrapOpt_getD]
  exact ⟨rfl, rfl⟩

/-- Witness for C1 at a concrete split of a two-event stream. -/
theorem c1_witness :
    (processCalls zeroAnalyzer defaultParams initState
        [[⟨0, 0, 0, true⟩], [⟨0, 0, 5, true⟩]]).1 =
      (process zeroAnalyzer defaultParams initState
        ([[⟨0, 0, 0, true⟩], [⟨0, 0, 5, true⟩]] :
          List (List Event)).flatten).1 ∧
      (processCalls zeroAnalyzer defaultParams initState
          [[⟨0, 0, 0, true⟩], [⟨0, 0, 5, true⟩]]).2 =
        (process zeroAnalyzer defaultParams initState
          ([[⟨0, 0, 0, true⟩], [⟨0, 0, 5, true⟩]] :
            List (List Event)).flatten).2.getD [] :=
  c1_batching_invariance zeroAnalyzer defaultParams initState
    [[⟨0, 0, 0, true⟩], [⟨0, 0, 5, true⟩]] (by decide)

/-- C2: output-rate conservation — over a whole session on a stream spanning
`span` microseconds of binned-signal time (first event to last event), however
it is batched into calls, the total number of RPM samples equals
`floor(span seconds × SAMPLING_FREQUENCY)` within `±1`. -/
theorem c2_output_rate_conservation (A : Analyzer) (p : Params)
    (parts : List (List Event)) (e : Event) (rest : List Event)
    (hflat : parts.flatten = e :: rest) (hs : SortedFrom 0 (e :: rest)) :
    (processCalls A p initState parts).2.length ≤
        (lastTimestamp rest e.t - e.t) * SAMPLING_FREQUENCY /
          MICROSECONDS_PER_SECOND ∧
      (lastTimestamp rest e.t - e.t) * SAMPLING_FREQUENCY /
          MICROSECONDS_PER_SECOND ≤
        (processCalls A p initState parts).2.length + 1 := by
  have hs0 : SortedFrom initState.lastT parts.flatten := by rw [hflat]; exact hs
  have hjoin := processCalls_join A p initState parts hs0
  have hrest : SortedFrom e.t rest := by
    have := hs
    rw [SortedFrom, sortedFromB_cons] at this
    exact this.2
  have hcount : (processCalls A p initState parts).2.length =
      ticksOfBins (binIndexFrom e.t (lastTimestamp rest e.t)) := by
    rw [hjoin]
    simp only
    rw [hflat]
    exact processEvents_init_count A (clampParams p) e rest hrest
  rw [hcount]
  simp only [ticksOfBins, binIndexFrom, SAMPLING_FREQUENCY, FFT_FREQUENCY,
    MICROSECONDS_PER_SECOND]
  exact rate_floor_bound (lastTimestamp rest e.t - e.t)

/-- Witness for C2 at a concrete one-batch, one-event session. -/
theorem c2_witness :
    (processCalls zeroAnalyzer defaultParams initState [[⟨0, 0, 7, true⟩]]).2.length ≤
        (lastTimestamp [] (7 : ℕ) - 7) * SAMPLING_FREQUENCY /
          MICROSECONDS_PER_SECOND ∧
      (lastTimestamp [] (7 : ℕ) - 7) * SAMPLING_FREQUENCY /
          MICROSECONDS_PER_SECOND ≤
        (processCalls zeroAnalyzer defaultParams initState
          [[⟨0, 0, 7, true⟩]]).2.length + 1 :=
  c2_output_rate_conservation zeroAnalyzer defaultParams [[⟨0, 0, 7, true⟩]]
    ⟨0, 0, 7, true⟩ [] (by decide) (by decide)

/-- C3, counterexample: the spec's analysis-clock formula
`FFT_SAMPLES / SAMPLING_FREQUENCY / FFT_FREQUENCY` evaluates to `0.2` seconds
(102.4 bins), not approximately `0.1` seconds (~51 bins): it differs from
`1 / SAMPLING_FREQUENCY` by a factor of two, and the modelled clock already
fires after 52 bins. -/
theorem c3_counterexample :
    (FFT_SAMPLES : ℚ) / (SAMPLING_FREQUENCY : ℚ) / (FFT_FREQUENCY : ℚ) = 1 / 5 ∧
      (1 : ℚ) / 5 ≠ 1 / 10 ∧
      (1 : ℚ) / 5 * (FFT_FREQUENCY : ℚ) = 512 / 5 ∧
      ticksOfBins 52 = 1 ∧ (52 : ℚ) < 512 / 5 := by
  refine ⟨?_, by norm_num, ?_, by decide, by norm_num⟩
  · simp only [FFT_SAMPLES, SAMPLING_FREQUENCY, FFT_FREQUENCY]
    norm_num
  · simp only [FFT_FREQUENCY]
    norm_num

/-- C3, amended: the analysis clock fires once per `1 / SAMPLING_FREQUENCY`
seconds of binned-signal time — after `b` bins it has fired
`floor(b × SAMPLING_FREQUENCY / FFT_FREQUENCY)` times, i.e. once per
`FFT_FREQUENCY / SAMPLING_FREQUENCY = 51.2` bins ≈ 0.1 s — whereas the spec's
formula `FFT_SAMPLES / SAMPLING_FREQUENCY / FFT_FREQUENCY` equals `0.2` s. -/
theorem c3_analysis_clock (b : ℕ) :
    ticksOfBins b = ⌊(b : ℚ) * (SAMPLING_FREQUENCY : ℚ) / (FFT_FREQUENCY : ℚ)⌋₊ ∧
      (FFT_FREQUENCY : ℚ) / (SAMPLING_FREQUENCY : ℚ) = 256 / 5 ∧
      (1 : ℚ) / (SAMPLING_FREQUENCY : ℚ) = 1 / 10 ∧
      (FFT_SAMPLES : ℚ) / (SAMPLING_FREQUENCY : ℚ) / (FFT_FREQUENCY : ℚ) =
        2 * (1 / (SAMPLING_FREQUENCY : ℚ)) := by
  refine ⟨?_, ?_, ?_, ?_⟩
  · have hcast : (b : ℚ) * (SAMPLING_FREQUENCY : ℚ) / (FFT_FREQUENCY : ℚ) =
        ((b * SAMPLING_FREQUENCY : ℕ) : ℚ) / ((FFT_FREQUENCY : ℕ) : ℚ) := by
      push_cast
      ring
    rw [hcast, Nat.floor_div_nat, Nat.floor_natCast]
    rfl
  · simp only [FFT_FREQUENCY, SAMPLING_FREQUENCY]; norm_num
  · simp only [SAMPLING_FREQUENCY]; norm_num
  · simp only [FFT_SAMPLES, SAMPLING_FREQUENCY, FFT_FREQUENCY]; norm_num

/-- C4, counterexample: the harmonic-compensation argument the host passes to
`process` (line 80) is `1 / frequency_divider`, a float reciprocal — at the
default divider 3 it equals `1/3`, which is neither `≥ 1` nor an integer, so
`process` does not take the parameter as an integer `frequency_divider ≥ 1`. -/
theorem c4_counterexample :
    frequencyArgOf DEFAULT_FREQUENCY_DIVIDER = 1 / 3 ∧
      ¬ (1 ≤ frequencyArgOf DEFAULT_FREQUENCY_DIVIDER) ∧
      ¬ (∃ n : ℤ, (n : ℚ) = frequencyArgOf DEFAULT_FREQUENCY_DIVIDER) := by
  have h13 : frequencyArgOf DEFAULT_FREQUENCY_DIVIDER = 1 / 3 := by
    simp only [frequencyArgOf, DEFAULT_FREQUENCY_DIVIDER]
    norm_num
  refine ⟨h13, ?_, ?_⟩
  · rw [h13]; norm_num
  · rw [h13]
    rintro ⟨n, hn⟩
    have h3 : ((3 * n : ℤ) : ℚ) = 1 := by push_cast; rw [hn]; ring
    have h4 : (3 * n : ℤ) = 1 := by exact_mod_cast h3
    omega

/-- C4, amended: `process` takes the harmonic compensation as the float factor
`frequencyArgOf k = 1/k` (the reciprocal of the caller's integer divider
`k ≥ 1`); it leaves the pipeline state independent of `k`, and every emitted
RPM sample with divider `k` equals the corresponding divider-1 sample divided
by `k` (so `k = 1` leaves the candidate frequency unchanged). -/
theorem c4_frequency_divider (A : Analyzer) (s : PipelineState)
    (es : List Event) (amp act : ℚ) (k : ℕ) (hk : 1 ≤ k) :
    frequencyArgOf k = 1 / (k : ℚ) ∧
      (process A ⟨amp, act, frequencyArgOf k⟩ s es).1 =
        (process A ⟨amp, act, 1⟩ s es).1 ∧
      (process A ⟨amp, act, frequencyArgOf k⟩ s es).2.getD [] =
        ((process A ⟨amp, act, 1⟩ s es).2.getD []).map
          (fun x => x / (k : ℚ)) := by
  have hk0 : (0 : ℚ) < (k : ℚ) := by exact_mod_cast Nat.lt_of_lt_of_le Nat.zero_lt_one hk
  have hk1 : (1 : ℚ) ≤ (k : ℚ) := by exact_mod_cast hk
  have hfpos : 0 < (1 : ℚ) / (k : ℚ) := by positivity
  have hfle : (1 : ℚ) / (k : ℚ) ≤ 1 := by
    rw [div_le_one hk0]; exact hk1
  have hclampk : clampParams ⟨amp, act, frequencyArgOf k⟩ =
      ⟨(clampParams ⟨amp, act, 1⟩).amplitudeThreshold,
        (clampParams ⟨amp, act, 1⟩).autocorrelationThreshold, 1 / (k : ℚ)⟩ := by
    simp only [clampParams, frequencyArgOf]
    rw [if_pos (And.intro hfpos hfle)]
  have hclamp1 : clampParams ⟨amp, act, (1 : ℚ)⟩ =
      ⟨(clampParams ⟨amp, act, 1⟩).amplitudeThreshold,
        (clampParams ⟨amp, act, 1⟩).autocorrelationThreshold, 1⟩ := by
    simp only [clampParams]
    rw [if_pos (And.intro zero_lt_one (le_refl (1 : ℚ)))]
  have hmapeq : ∀ l : List ℚ, l.map (fun x => 1 / (k : ℚ) * x) =
      l.map (fun x => x / (k : ℚ)) := by
    intro l
    apply List.map_congr_left
    intro x _
    rw [one_div, inv_mul_eq_div]
  refine ⟨rfl, ?_, ?_⟩ <;> by_cases hs : SortedFrom s.lastT es
  · rw [process_sorted A _ s es hs, process_sorted A _ s es hs, hclampk, hclamp1,
      processEvents_factor]
  · simp only [process, if_neg hs]
  · rw [process_sorted A _ s es hs, process_sorted A _ s es hs, hclampk, hclamp1,
      processEvents_factor]
    simp only [wrapOpt_getD]
    exact hmapeq _
  · simp only [process, if_neg hs, Option.getD_none, List.map_nil]

/-- Witness for C4 at the default divider 3 on a concrete call. -/
theorem c4_witness :
    frequencyArgOf 3 = 1 / (3 : ℚ) ∧
      (process zeroAnalyzer ⟨10, 2/5, frequencyArgOf 3⟩ initState
          [⟨0, 0, 4, true⟩]).1 =
        (process zeroAnalyzer ⟨10, 2/5, 1⟩ initState [⟨0, 0, 4, true⟩]).1 ∧
      (process zeroAnalyzer ⟨10, 2/5, frequencyArgOf 3⟩ initState
          [⟨0, 0, 4, true⟩]).2.getD [] =
        ((process zeroAnalyzer ⟨10, 2/5, 1⟩ initState
          [⟨0, 0, 4, true⟩]).2.getD []).map (fun x => x / (3 : ℚ)) := by
  have h := c4_frequency_divider zeroAnalyzer initState [⟨0, 0, 4, true⟩]
    10 (2/5) 3 (by norm_num)
  exact_mod_cast h

/-- C5, counterexample: on a concrete stream crossing one analysis boundary
with an analyzer whose magnitudes all stay at 0 (both acceptance tests fail at
every window), `process` still returns an RPM sample — the placeholder `0` —
so a failing tick does produce an RPM sample, contradicting the claim. -/
theorem c5_counterexample :
    (¬ Accepted zeroAnalyzer (clampParams defaultParams)
        (List.replicate FFT_SAMPLES 0)) ∧
      (process zeroAnalyzer defaultParams initState
        [⟨0, 0, 0, true⟩, ⟨0, 0, 101563, true⟩]).2 = some [0] :=
  ⟨zeroAnalyzer_not_accepted (clampParams defaultParams)
      (clampParams_valid defaultParams).1 (List.replicate FFT_SAMPLES 0),
    process_two_events_some_zero⟩

/-- C5, amended: an analysis tick emits a nonzero RPM sample only if both the
spectral-magnitude test and the periodicity confirmation pass; if either test
fails, the detection marker is cleared (sentinel written) and the tick's
emitted sample is the placeholder `0` — an RPM sample is still produced, to
keep the output cadence locked to `SAMPLING_FREQUENCY`. -/
theorem c5_gating (A : Analyzer) (p : Params) (w : List ℚ) :
    ((analysisTick A p w).sample ≠ 0 → Accepted A p w) ∧
      (¬ Accepted A p w →
        (analysisTick A p w).sample = 0 ∧
          (analysisTick A p w).detections = sentinelDetections) := by
  constructor
  · intro hne
    by_contra hA
    exact hne (analysisTick_not_accepted A p w hA).1
  · exact analysisTick_not_accepted A p w

/-- Witness for C5 on the all-zero window under the default parameters. -/
theorem c5_witness :
    (analysisTick zeroAnalyzer (clampParams defaultParams)
        (List.replicate FFT_SAMPLES 0)).sample = 0 ∧
      (analysisTick zeroAnalyzer (clampParams defaultParams)
        (List.replicate FFT_SAMPLES 0)).detections = sentinelDetections :=
  (c5_gating zeroAnalyzer (clampParams defaultParams)
      (List.replicate FFT_SAMPLES 0)).2
    (zeroAnalyzer_not_accepted (clampParams defaultParams)
      (clampParams_valid defaultParams).1 (List.replicate FFT_SAMPLES 0))

/-- C6, counterexample: the caller's detection buffer, allocated at
`__main__.py` line 58 as `np.zeros(4, dtype=np.float32)`, has length 4, not 2;
the pipeline's sentinel write also spans 4 floats. -/
theorem c6_counterexample :
    initState.detections.length = 4 ∧ sentinelDetections.length = 4 ∧
      initState.detections.length ≠ 2 := by
  refine ⟨?_, rfl, ?_⟩ <;> simp [initState]

/-- C6, amended: the detection buffer maintained by `process` has length 4;
the periodicity marker `{position, value}` occupies indices 2 and 3 (the
indices the caller reads at `__main__.py` lines 132-146).  After every
session the buffer is in one of exactly three states: still the caller's
initial zeros (never written), the sentinel write (position `-1`), or an
accepted detection's write, in which index 2 holds the non-negative
frequency-axis position of the confirmed autocorrelation peak and index 3
holds that peak's value beside it; in particular the stored position at
index 2 is always `-1` or non-negative. -/
theorem c6_detection_marker (A : Analyzer) (p : Params)
    (batches : List (List Event)) :
    (processCalls A p initState batches).1.detections.length = 4 ∧
      MarkerState A (clampParams p)
        (processCalls A p initState batches).1.detections ∧
      ((processCalls A p initState batches).1.detections.get? 2 = some (-1) ∨
        ∃ x, 0 ≤ x ∧
          (processCalls A p initState batches).1.detections.get? 2 = some x) := by
  have hP : ∀ w,
      MarkerState A (clampParams p) (analysisTick A (clampParams p) w).detections := by
    intro w
    by_cases hA : Accepted A (clampParams p) w
    · exact Or.inr (Or.inr
        ⟨w, hA, (analysisTick_accepted A (clampParams p) w hA).2⟩)
    · exact Or.inr (Or.inl (analysisTick_not_accepted A (clampParams p) w hA).2)
  have htri : MarkerState A (clampParams p)
      (processCalls A p initState batches).1.detections :=
    (processCalls_pres (MarkerState A (clampParams p)) (fun _ => True) A p hP
      (fun _ => trivial) initState batches (Or.inl rfl)).1
  refine ⟨?_, htri, ?_⟩
  · rcases htri with h | h | ⟨w, -, h⟩ <;> rw [h] <;> rfl
  · rcases htri with h | h | ⟨w, -, h⟩
    · rw [h]
      exact Or.inr ⟨0, le_refl 0, rfl⟩
    · rw [h]
      exact Or.inl rfl
    · rw [h]
      refine Or.inr ⟨binFrequency (peakOf (A.autocorrelation w)).1, ?_, rfl⟩
      unfold binFrequency
      positivity

/-- C7, counterexample: a session of empty batches never writes the detection
buffer, which therefore keeps the caller's initial zeros — position 0, not the
sentinel `-1` — so the claim that the marker holds the sentinel on an
all-empty stream is false. -/
theorem c7_counterexample :
    processCalls zeroAnalyzer defaultParams initState [[], []] =
        (initState, []) ∧
      initState.detections.get? 2 = some 0 ∧ (0 : ℚ) ≠ -1 := by
  refine ⟨?_, by simp [initState], by norm_num⟩
  rw [processCalls_cons, process_empty_batch]
  simp only
  rw [processCalls_cons, process_empty_batch]
  simp [processCalls]

/-- C7, amended zero-input invariant: the caller-initialized buffers start at
all zeros; an all-empty session leaves the whole state untouched (in
particular the buffers stay zero and the unwritten marker keeps position 0,
not the sentinel) and returns no RPM sample; and for a session whose spectral
magnitudes never exceed the amplitude threshold, no detection is ever
accepted — every emitted sample is the placeholder `0` and the detection
buffer is either still untouched or holds the sentinel. -/
theorem c7_zero_input (A : Analyzer) (p : Params)
    (batches : List (List Event)) :
    initState.spectrumBuf = List.replicate (FFT_SAMPLES / 2) 0 ∧
      initState.autocorrelationBuf = List.replicate (FFT_SAMPLES / 2) 0 ∧
      ((∀ b ∈ batches, b = []) →
        processCalls A p initState batches = (initState, [])) ∧
      ((∀ w, ∀ x ∈ A.spectrum w, x ≤ (clampParams p).amplitudeThreshold) →
        (∀ x ∈ (processCalls A p initState batches).2, x = 0) ∧
          ((processCalls A p initState batches).1.detections =
              initState.detections ∨
            (processCalls A p initState batches).1.detections =
              sentinelDetections)) := by
  refine ⟨rfl, rfl, ?_, ?_⟩
  · intro h
    induction batches with
    | nil => simp [processCalls]
    | cons b rest ih =>
      have hb : b = [] := h b (List.mem_cons_self b rest)
      rw [processCalls_cons, hb, process_empty_batch]
      simp only [Option.getD_none, List.nil_append]
      exact ih (fun b hb => h b (List.mem_cons_of_mem _ hb))
  · intro hbt
    have hna : ∀ w, ¬ Accepted A (clampParams p) w := fun w =>
      not_accepted_of_spectrum_le A (clampParams p) w
        (clampParams_valid p).1 (hbt w)
    have hP : ∀ w, (analysisTick A (clampParams p) w).detections =
        initState.detections ∨
        (analysisTick A (clampParams p) w).detections = sentinelDetections :=
      fun w => Or.inr (analysisTick_not_accepted A (clampParams p) w (hna w)).2
    have hQ : ∀ w, (analysisTick A (clampParams p) w).sample = 0 :=
      fun w => (analysisTick_not_accepted A (clampParams p) w (hna w)).1
    have := processCalls_pres
      (fun d => d = initState.detections ∨ d = sentinelDetections)
      (fun x => x = 0) A p hP hQ initState batches (Or.inl rfl)
    exact ⟨this.2, this.1⟩

/-- Witness for C7: the all-empty and below-threshold hypotheses hold for a
concrete two-call session with the zero analyzer. -/
theorem c7_witness :
    processCalls zeroAnalyzer defaultParams initState [[], [⟨0, 0, 3, true⟩]] =
        (initState, []) ∨
      ((∀ x ∈ (processCalls zeroAnalyzer defaultParams initState
          [[], [⟨0, 0, 3, true⟩]]).2, x = 0) ∧
        ((processCalls zeroAnalyzer defaultParams initState
            [[], [⟨0, 0, 3, true⟩]]).1.detections = initState.detections ∨
          (processCalls zeroAnalyzer defaultParams initState
            [[], [⟨0, 0, 3, true⟩]]).1.detections = sentinelDetections)) :=
  Or.inr ((c7_zero_input zeroAnalyzer defaultParams
      [[], [⟨0, 0, 3, true⟩]]).2.2.2
    (fun w x hx => by
      rw [List.eq_of_mem_replicate hx]
      exact (clampParams_valid defaultParams).1))

/-- C8: invalid-configuration handling — every `process` call behaves exactly
as if the clamped parameters had been supplied, the clamped parameters always
lie in the documented ranges, and parameters already in range are left
unchanged (so the call is never rejected and the session never fails). -/
theorem c8_invalid_configuration (A : Analyzer) (p : Params)
    (s : PipelineState) (es : List Event) :
    process A p s es = process A (clampParams p) s es ∧
      ValidParams (clampParams p) ∧
      (ValidParams p → clampParams p = p) :=
  ⟨process_clamp A p s es, clampParams_valid p, fun h => clampParams_of_valid h⟩

/-- Witness for C8 at a concrete invalid configuration (negative amplitude
threshold, out-of-range autocorrelation threshold, factor of divider 0) and a
concrete valid one. -/
theorem c8_witness :
    process zeroAnalyzer ⟨-5, 2, 0⟩ initState [] =
        process zeroAnalyzer (clampParams ⟨-5, 2, 0⟩) initState [] ∧
      ValidParams (clampParams ⟨-5, 2, 0⟩) ∧
      clampParams ⟨1, 1, 1⟩ = ⟨1, 1, 1⟩ :=
  ⟨(c8_invalid_configuration zeroAnalyzer ⟨-5, 2, 0⟩ initState []).1,
    (c8_invalid_configuration zeroAnalyzer ⟨-5, 2, 0⟩ initState []).2.1,
    (c8_invalid_configuration zeroAnalyzer ⟨1, 1, 1⟩ initState []).2.2
      (by refine ⟨?_, ?_, ?_, ?_, ?_⟩ <;> norm_num)⟩

/-- C9, counterexample: a single `process` call spanning 31 seconds of
binned-signal time returns 310 RPM samples — more than the host's 300-slot
history, on which the rolling update of `__main__.py` lines 147-149 is no
longer well-defined (`numpy` raises a broadcast error). -/
theorem c9_counterexample :
    ((process zeroAnalyzer defaultParams initState
        [⟨0, 0, 0, true⟩, ⟨0, 0, 31000000, true⟩]).2.getD []).length = 310 ∧
      ¬ ((310 : ℕ) ≤ 300) := by
  refine ⟨?_, by norm_num⟩
  have hs : SortedFrom initState.lastT
      [⟨0, 0, 0, true⟩, ⟨0, 0, 31000000, true⟩] := by decide
  have hrest : SortedFrom (0 : ℕ) [(⟨0, 0, 31000000, true⟩ : Event)] := by decide
  rw [process_sorted _ _ _ _ hs, wrapOpt_getD]
  rw [processEvents_init_count zeroAnalyzer (clampParams defaultParams)
    ⟨0, 0, 0, true⟩ [⟨0, 0, 31000000, true⟩] hrest]
  decide

/-- C9, amended: whenever `process` returns a sample sequence rather than
`none`, the sequence is non-empty; and whenever its length is at most the
300-slot history, the host's rolling update is well-defined — it preserves
the history length and appends the new samples in order at the end (newest
last). -/
theorem c9_rolling_history (A : Analyzer) (p : Params) (s : PipelineState)
    (es : List Event) (st : PipelineState) (l : List ℚ)
    (h : process A p s es = (st, some l)) :
    l ≠ [] ∧
      ∀ buf : List ℚ, buf.length = 300 → l.length ≤ 300 →
        (hostUpdateRpms buf l).length = 300 ∧
          hostUpdateRpms buf l = buf.drop l.length ++ l := by
  have h2 : (process A p s es).2 = some l := by rw [h]
  constructor
  · simp only [process] at h2
    split at h2
    · simp only at h2
      split at h2
      · exact Option.noConfusion h2
      · next hne =>
        intro hnil
        exact hne ((Option.some.inj h2) ▸ hnil)
    · simp only at h2
      exact Option.noConfusion h2
  · intro buf hb hl
    have hlen : l.length ≤ buf.length := by rw [hb]; exact hl
    exact ⟨by rw [hostUpdateRpms_length buf l hlen, hb],
      hostUpdateRpms_eq buf l hlen⟩

/-- Witness for C9: a concrete returning call and the concrete rolling-history
update on the host's initial 300-slot buffer. -/
theorem c9_witness :
    (hostUpdateRpms rpmsInitial [0]).length = 300 ∧
      hostUpdateRpms rpmsInitial [0] = rpmsInitial.drop 1 ++ [0] :=
  (c9_rolling_history zeroAnalyzer defaultParams initState
      [⟨0, 0, 0, true⟩, ⟨0, 0, 101563, true⟩]
      (process zeroAnalyzer defaultParams initState
        [⟨0, 0, 0, true⟩, ⟨0, 0, 101563, true⟩]).1 [0]
      (by rw [← process_two_events_some_zero])).2
    rpmsInitial
    (by rw [show rpmsInitial = List.replicate 300 0 from rfl, List.length_replicate])
    (by simp)

/-- C10: cursor indexing never goes out of bounds — `to_python` stores a
cursor fraction only when it lies in `[0, 1]` (starting from 0), so for every
display buffer of length `n ≥ 1` (spectrum and autocorrelation have length
512, the RPM history 300) the computed index `round((n - 1) · c)` lies in
`[0, n - 1]`. -/
theorem c10_cursor_safety (vs : List ℚ) (n : ℕ) (hn : 1 ≤ n) :
    initState.spectrumBuf.length = 512 ∧
      initState.autocorrelationBuf.length = 512 ∧
      rpmsInitial.length = 300 ∧
      0 ≤ cursorIndex n (vs.foldl storeCursor 0) ∧
      cursorIndex n (vs.foldl storeCursor 0) ≤ (n : ℤ) - 1 := by
  obtain ⟨h0, h1⟩ := foldl_storeCursor_mem vs
  obtain ⟨hlo, hhi⟩ := cursorIndex_bounds hn h0 h1
  refine ⟨?_, ?_, ?_, hlo, hhi⟩
  · rw [show initState.spectrumBuf = List.replicate (FFT_SAMPLES / 2) 0 from rfl,
      List.length_replicate]
    rfl
  · rw [show initState.autocorrelationBuf =
      List.replicate (FFT_SAMPLES / 2) 0 from rfl, List.length_replicate]
    rfl
  · rw [show rpmsInitial = List.replicate 300 0 from rfl, List.length_replicate]


/-- Witness for C10 at a concrete cursor sequence and the spectrum buffer
length. -/
theorem c10_witness :
    initState.spectrumBuf.length = 512 ∧
      initState.autocorrelationBuf.length = 512 ∧
      rpmsInitial.length = 300 ∧
      0 ≤ cursorIndex 512 (List.foldl storeCursor 0 [1/2, 3/4]) ∧
      cursorIndex 512 (List.foldl storeCursor 0 [1/2, 3/4]) ≤ (512 : ℤ) - 1 :=
  c10_cursor_safety [1/2, 3/4] 512 (by norm_num)

end FidgetSpinner
